import Mathlib

/-!
Verification development for the resume-tailoring backend.

The definitions below are shallow embeddings of the Python sources:
  app/utils/gdrive_resume_utils.py   (document patch engine)
  app/services/google_drive_service.py (exact-match replace path)
  app/services/resume_service.py     (tailoring pipeline)
  app/workers/tailoring_worker.py    (worker loop / job claiming)

Strings are modelled as lists of characters; regular expressions produced by
the pattern builders are modelled as token lists (a token either matches one
concrete character or one-or-more whitespace characters), with an executable
backtracking matcher giving the regex search semantics.
-/

set_option maxRecDepth 10000

/-- Non-breaking space, U+00A0. -/
def nbsp : Char := Char.ofNat 0xA0

/-- Zero-width space, U+200B. -/
def zwsp : Char := Char.ofNat 0x200B

/-- Python str.isspace, which is also the character set matched by a regex
backslash-s class in Python 3 with str patterns: ASCII whitespace, the
C1 controls 28 to 31, NEL, NBSP, and the Unicode Zs separators. -/
def py_is_space (c : Char) : Bool :=
  let n := c.toNat
  (9 ≤ n && n ≤ 13) || (28 ≤ n && n ≤ 31) || n == 32 || n == 133 || n == 160 ||
  n == 0x1680 || (0x2000 ≤ n && n ≤ 0x200A) ||
  n == 0x2028 || n == 0x2029 || n == 0x202F || n == 0x205F || n == 0x3000

/-- Characters treated as whitespace on the block side of the pattern builders:
the test written in the source as: ch.isspace() or ch in (NBSP, ZWSP). -/
def is_flex_ws (c : Char) : Bool :=
  py_is_space c || c == nbsp || c == zwsp

/-- Character class of the flexible whitespace regex piece built by
_flexible_whitespace_pattern: backslash-s plus NBSP plus ZWSP. -/
def ws_class (c : Char) : Bool :=
  py_is_space c || c == nbsp || c == zwsp

/-- Line terminators recognised by Python str.splitlines. -/
def is_line_break (c : Char) : Bool :=
  let n := c.toNat
  (10 ≤ n && n ≤ 13) || n == 28 || n == 29 || n == 30 || n == 133 ||
  n == 0x2028 || n == 0x2029

/-- A token of the compiled flexible pattern: either one-or-more whitespace
(the piece produced for a whitespace run) or one literal character
(an escaped non-whitespace character). -/
inductive Tok where
  | ws
  | lit (c : Char)
deriving DecidableEq, Repr

/-- The scanning loop shared by _pattern_from_block (on the whole block) and
_pattern_from_block_docs (on each line body).  The flag records whether the
scanner is inside a whitespace run already consumed by an emitted ws token. -/
def scan_block : List Char → Bool → List Tok
  | [], _ => []
  | c :: rest, in_run =>
    if is_flex_ws c then
      if in_run then scan_block rest true else Tok.ws :: scan_block rest true
    else
      Tok.lit c :: scan_block rest false

/-- Embedding of _pattern_from_block (gdrive_resume_utils.py lines 126 to 144)
and of the identical local _flexible_pattern_from_block in resume_service.py:
whitespace runs become a flexible one-or-more-whitespace token, every other
character is escaped literally. -/
def pattern_from_block (block : List Char) : List Tok :=
  scan_block block false

/-- Python str.splitlines, accumulator-passing version.  CR LF counts as a
single terminator; a trailing terminator does not produce a final empty line. -/
def py_splitlines_go : List Char → List Char → List (List Char)
  | [], acc => if acc.isEmpty then [] else [acc.reverse]
  | '\r' :: '\n' :: rest, acc => acc.reverse :: py_splitlines_go rest []
  | c :: rest, acc =>
    if is_line_break c then acc.reverse :: py_splitlines_go rest []
    else py_splitlines_go rest (c :: acc)

/-- Python str.splitlines. -/
def py_splitlines (l : List Char) : List (List Char) :=
  py_splitlines_go l []

/-- Bullet glyphs of the list-prefix regex: asterisk, hyphen, bullet,
en dash, em dash. -/
def bullet_glyphs : List Char :=
  ['*', '-', Char.ofNat 0x2022, Char.ofNat 0x2013, Char.ofNat 0x2014]

/-- Inclusive code point ranges of the Unicode decimal digits (category Nd),
the character class matched by the regex backslash-d in Python 3 with str
patterns. -/
def nd_digit_ranges : List (Nat × Nat) :=
  [(0x30, 0x39), (0x660, 0x669), (0x6F0, 0x6F9), (0x7C0, 0x7C9),
   (0x966, 0x96F), (0x9E6, 0x9EF), (0xA66, 0xA6F), (0xAE6, 0xAEF),
   (0xB66, 0xB6F), (0xBE6, 0xBEF), (0xC66, 0xC6F), (0xCE6, 0xCEF),
   (0xD66, 0xD6F), (0xDE6, 0xDEF), (0xE50, 0xE59), (0xED0, 0xED9),
   (0xF20, 0xF29), (0x1040, 0x1049), (0x1090, 0x1099), (0x17E0, 0x17E9),
   (0x1810, 0x1819), (0x1946, 0x194F), (0x19D0, 0x19D9), (0x1A80, 0x1A89),
   (0x1A90, 0x1A99), (0x1B50, 0x1B59), (0x1BB0, 0x1BB9), (0x1C40, 0x1C49),
   (0x1C50, 0x1C59), (0xA620, 0xA629), (0xA8D0, 0xA8D9), (0xA900, 0xA909),
   (0xA9D0, 0xA9D9), (0xA9F0, 0xA9F9), (0xAA50, 0xAA59), (0xABF0, 0xABF9),
   (0xFF10, 0xFF19), (0x104A0, 0x104A9), (0x10D30, 0x10D39), (0x11066, 0x1106F),
   (0x110F0, 0x110F9), (0x11136, 0x1113F), (0x111D0, 0x111D9), (0x112F0, 0x112F9),
   (0x11450, 0x11459), (0x114D0, 0x114D9), (0x11650, 0x11659), (0x116C0, 0x116C9),
   (0x11730, 0x11739), (0x118E0, 0x118E9), (0x11950, 0x11959), (0x11C50, 0x11C59),
   (0x11D50, 0x11D59), (0x11DA0, 0x11DA9), (0x16A60, 0x16A69), (0x16AC0, 0x16AC9),
   (0x16B50, 0x16B59), (0x1D7CE, 0x1D7FF), (0x1E140, 0x1E149), (0x1E2F0, 0x1E2F9),
   (0x1E950, 0x1E959), (0x1FBF0, 0x1FBF9)]

/-- Python regex backslash-d for str patterns: any Unicode decimal digit. -/
def py_is_digit (c : Char) : Bool :=
  nd_digit_ranges.any fun r => r.1 ≤ c.toNat && c.toNat ≤ r.2

/-- Matching of the anchored regex used both as bullet prefix detector in
_pattern_from_block_docs and as _LIST_PREFIX_RE: optional leading whitespace,
then either a bullet glyph or a run of decimal digits followed by a dot or
closing parenthesis, then at least one whitespace character.  Returns the
rest of the line after the match (the line body), or none when the regex
does not match at the start of the line. -/
def bullet_prefix_match (line : List Char) : Option (List Char) :=
  match line.dropWhile py_is_space with
  | [] => none
  | c :: r =>
    if bullet_glyphs.contains c then
      match r with
      | [] => none
      | d :: _ => if py_is_space d then some (r.dropWhile py_is_space) else none
    else if py_is_digit c then
      match (c :: r).dropWhile py_is_digit with
      | [] => none
      | p :: r3 =>
        if p == '.' || p == ')' then
          match r3 with
          | [] => none
          | e :: _ => if py_is_space e then some (r3.dropWhile py_is_space) else none
        else none
    else none

/-- Line body used by _pattern_from_block_docs: the line with an optional
bullet or number prefix removed. -/
def line_body (line : List Char) : List Char :=
  match bullet_prefix_match line with
  | some rest => rest
  | none => line

/-- Embedding of _pattern_from_block_docs (gdrive_resume_utils.py lines 147
to 185): split the block into lines, drop an optional bullet or number prefix
from each line, compile each line body with the flexible scanner, and join
the per-line token lists with a flexible whitespace token between lines. -/
def pattern_from_block_docs (block : List Char) : List Tok :=
  List.intercalate [Tok.ws] ((py_splitlines block).map (fun line => scan_block (line_body line) false))

/-- Full-match worker, structurally recursive on the text so that it computes
by kernel reduction: a ws token consumes one or more ws_class characters, a
lit token consumes exactly its character. -/
def tok_match_go : List Char → List Tok → Bool
  | [], toks => toks.isEmpty
  | _ :: _, [] => false
  | d :: ds, Tok.lit c :: ts => c == d && tok_match_go ds ts
  | d :: ds, Tok.ws :: ts =>
    ws_class d && (tok_match_go ds ts || tok_match_go ds (Tok.ws :: ts))

/-- Full match of a token list against a chunk of text, with the Python regex
semantics. -/
def tok_match (toks : List Tok) (chars : List Char) : Bool :=
  tok_match_go chars toks

/-- Worker computing the length of the match of the token list at the start
of the text, if any, preferring the greedy (longest) whitespace consumption
exactly as the backtracking regex engine does for these patterns. -/
def match_end_go : List Char → List Tok → Option Nat
  | _, [] => some 0
  | [], _ :: _ => none
  | d :: ds, Tok.lit c :: ts =>
    if c == d then (match_end_go ds ts).map (· + 1) else none
  | d :: ds, Tok.ws :: ts =>
    if ws_class d then
      match match_end_go ds (Tok.ws :: ts) with
      | some n => some (n + 1)
      | none => (match_end_go ds ts).map (· + 1)
    else none

/-- Length of the leftmost-anchored match of the token list, if any. -/
def match_end (toks : List Tok) (chars : List Char) : Option Nat :=
  match_end_go chars toks

/-- Scanning loop of regex search: try a match at each position left to right,
returning the span of the leftmost match. -/
def tok_search_go (toks : List Tok) : List Char → Nat → Option (Nat × Nat)
  | chars, pos =>
    match match_end toks chars with
    | some n => some (pos, pos + n)
    | none =>
      match chars with
      | [] => none
      | _ :: rest => tok_search_go toks rest (pos + 1)

/-- Regex search of the compiled pattern over a text: span of the leftmost
match, or none. -/
def tok_search (toks : List Tok) (chars : List Char) : Option (Nat × Nat) :=
  tok_search_go toks chars 0

/-- A text run of the remote document: the textRun member of a paragraph
element, carrying its content string (a missing or empty content member is
the empty list). -/
structure TextRun where
  content : List Char
deriving DecidableEq, Repr

/-- A paragraph element of the remote document: optional native start and end
indices and an optional text run. -/
structure ParaElement where
  startIndex : Option Int
  endIndex : Option Int
  textRun : Option TextRun
deriving DecidableEq, Repr

/-- A block element of the remote document body: a paragraph (with optional
native indices and a flag recording whether the paragraph carries a bullet),
a table (rows of cells of nested block elements), a table of contents, or a
section break. -/
inductive Element where
  | paragraph (startIndex endIndex : Option Int) (bullet : Bool) (elements : List ParaElement)
  | table (startIndex endIndex : Option Int) (rows : List (List (List Element)))
  | toc (content : List Element)
  | sectionBreak

/-- A remote document: the content list of its body. -/
structure Document where
  elements : List Element

/-- A segment of the snapshot map built by _flatten_doc_text_with_map:
flat-text offsets, native document indices, and the run text. -/
structure Segment where
  flat_start : Nat
  flat_end : Nat
  doc_start : Int
  doc_end : Int
  text : List Char
deriving DecidableEq, Repr

/-- A text run accepted by the flatten loop: nonempty content and both
native indices present. -/
structure Run where
  text : List Char
  doc_start : Int
  doc_end : Int
deriving DecidableEq, Repr

/-- Runs of one paragraph kept by _flatten_doc_text_with_map: paragraph
elements are skipped when the text run is missing, the content is empty, or
either native index is missing. -/
def para_valid_runs (pes : List ParaElement) : List Run :=
  pes.foldr (fun pe acc =>
    match pe.textRun with
    | none => acc
    | some tr =>
      if tr.content.isEmpty then acc
      else
        match pe.startIndex, pe.endIndex with
        | some s, some e => Run.mk tr.content s e :: acc
        | _, _ => acc) []

/-- Runs contributed by one body element in the flatten walk: only paragraph
elements are visited, every other element (tables included) is skipped. -/
def element_runs : Element → List Run
  | .paragraph _ _ _ pes => para_valid_runs pes
  | _ => []

/-- All runs of the document in the order visited by
_flatten_doc_text_with_map. -/
def doc_runs_of_elements (els : List Element) : List Run :=
  els.foldr (fun el acc => element_runs el ++ acc) []

/-- All runs of a document kept by the flatten walk. -/
def doc_runs (d : Document) : List Run :=
  doc_runs_of_elements d.elements

/-- Accumulating loop of _flatten_doc_text_with_map: concatenate the run
texts and record one segment per run at the running flat offset. -/
def flatten_go : List Run → Nat → List Char × List Segment
  | [], _ => ([], [])
  | r :: rest, off =>
    let p := flatten_go rest (off + r.text.length)
    (r.text ++ p.1,
     Segment.mk off (off + r.text.length) r.doc_start r.doc_end r.text :: p.2)

/-- Embedding of _flatten_doc_text_with_map (gdrive_resume_utils.py lines 188
to 230): flat text of the document plus the offset translation segments. -/
def flatten_doc_text_with_map (d : Document) : List Char × List Segment :=
  flatten_go (doc_runs d) 0

/-- Characters of a run paired with their native indices, as enumerated by
_extract_text_with_index_map. -/
def run_chars (text : List Char) (start : Int) : List (Char × Int) :=
  (List.range text.length).zipWith (fun i c => (c, start + i)) text

/-- Characters contributed by the paragraph elements of one paragraph in
_extract_text_with_index_map: skipped when the start index or the text run
is missing (the end index is not consulted). -/
def para_chars (pes : List ParaElement) : List (Char × Int) :=
  pes.foldr (fun pe acc =>
    match pe.startIndex, pe.textRun with
    | some s, some tr => run_chars tr.content s ++ acc
    | _, _ => acc) []

mutual
/-- Embedding of the visit closure of _extract_text_with_index_map
(google_drive_service.py lines 414 to 444): depth-first walk appending the
characters of each text run with their native indices, recursing into table
rows, table cells and tables of contents in document order. -/
def visit_elems : List Element → List (Char × Int)
  | [] => []
  | e :: rest => visit_elem e ++ visit_elems rest

/-- Characters contributed by one element in the extract walk. -/
def visit_elem : Element → List (Char × Int)
  | .paragraph _ _ _ pes => para_chars pes
  | .table _ _ rows => visit_rows rows
  | .toc content => visit_elems content
  | .sectionBreak => []

/-- Characters contributed by the rows of a table, in order. -/
def visit_rows : List (List (List Element)) → List (Char × Int)
  | [] => []
  | r :: rs => visit_row r ++ visit_rows rs

/-- Characters contributed by the cells of a row, in order. -/
def visit_row : List (List Element) → List (Char × Int)
  | [] => []
  | c :: cs => visit_elems c ++ visit_row cs
end

/-- Flat text of the extract walk: the document text string returned by
_extract_text_with_index_map. -/
def extract_full_text (d : Document) : List Char :=
  (visit_elems d.elements).map Prod.fst

/-- Embedding of _map_flat_offset_to_doc_index (gdrive_resume_utils.py lines
233 to 240): first segment in list order whose inclusive range contains the
offset wins, and the native index is the segment start plus the offset delta. -/
def map_flat_offset_to_doc_index : List Segment → Nat → Option Int
  | [], _ => none
  | seg :: rest, off =>
    if seg.flat_start ≤ off ∧ off ≤ seg.flat_end then
      some (seg.doc_start + ((off : Int) - (seg.flat_start : Int)))
    else map_flat_offset_to_doc_index rest off

/-- Embedding of _range_overlaps. -/
def range_overlaps (a_start a_end b_start b_end : Int) : Bool :=
  !(a_end ≤ b_start || b_end ≤ a_start)

/-- Embedding of _is_list_block (gdrive_resume_utils.py lines 247 to 258):
true when the native range overlaps a paragraph element that carries bullet
styling and has both native indices. -/
def is_list_block (d : Document) (doc_start doc_end : Int) : Bool :=
  d.elements.any fun el =>
    match el with
    | .paragraph (some s) (some e) b _ => range_overlaps s e doc_start doc_end && b
    | _ => false

/-- Embedding of _strip_list_prefixes: remove the bullet or number prefix of
each line (the sub of _LIST_PREFIX_RE, the same anchored regex as the bullet
prefix of the docs pattern builder) and rejoin the lines with newlines. -/
def strip_list_prefixes (text : List Char) : List Char :=
  List.intercalate ['\n'] ((py_splitlines text).map line_body)

/-- A Docs API batchUpdate request issued by replace_text_block_flexible. -/
inductive Request where
  | deleteContentRange (startIndex endIndex : Int)
  | insertText (index : Int) (text : List Char)
  | createParagraphBullets (startIndex endIndex : Int)
deriving DecidableEq, Repr

/-- Result of the flexible block replacement: the updated flag and match
count of the returned dict, plus the batchUpdate requests issued against the
document (empty when no batchUpdate call is made). -/
structure ReplaceResult where
  updated : Bool
  match_count : Nat
  requests : List Request
deriving DecidableEq, Repr

/-- Embedding of replace_text_block_flexible (gdrive_resume_utils.py lines
271 to 340), from the point where the document has been fetched: build the
docs-aware pattern from the original block, search the flattened text, map
the match span to native indices, then issue delete plus insert, stripping
bullet prefixes from the replacement and reapplying bullet styling when the
excised range overlapped a bulleted paragraph. -/
def replace_text_block_flexible (doc : Document) (original_text final_text : List Char) :
    ReplaceResult :=
  if original_text.isEmpty then ReplaceResult.mk false 0 []
  else
    let fl := flatten_doc_text_with_map doc
    match tok_search (pattern_from_block_docs original_text) fl.1 with
    | none => ReplaceResult.mk false 0 []
    | some se =>
      match map_flat_offset_to_doc_index fl.2 se.1,
            map_flat_offset_to_doc_index fl.2 se.2 with
      | some ds, some de =>
        let make_list := is_list_block doc ds de
        let insert_text := if make_list then strip_list_prefixes final_text else final_text
        let base := [Request.deleteContentRange ds de, Request.insertText ds insert_text]
        ReplaceResult.mk true 1
          (if make_list && !insert_text.isEmpty then
            base ++ [Request.createParagraphBullets ds (ds + (insert_text.length : Int))]
          else base)
      | _, _ => ReplaceResult.mk false 0 []

/-- Check that the needle starts at the head of the indexed haystack. -/
def starts_with_chars : List (Char × Int) → List Char → Bool
  | _, [] => true
  | [], _ :: _ => false
  | (c, _) :: rest, d :: ds => c == d && starts_with_chars rest ds

/-- Native end index of a match beginning at the haystack head: index of the
last matched character plus one (0 is never produced when the needle matches,
since the match is nonempty). -/
def occurrence_end (hay : List (Char × Int)) (len : Nat) : Int :=
  match hay.drop (len - 1) with
  | (_, i) :: _ => i + 1
  | [] => 0

/-- Scanning loop of _find_text_occurrences: the Python find loop advancing
past each found occurrence.  The fuel argument makes the recursion
structural; since every step removes at least one haystack element when the
needle is nonempty, fuel equal to the haystack length is always enough. -/
def find_occurrences_fuel : Nat → List (Char × Int) → List Char → List (Int × Int)
  | _, [], _ => []
  | 0, _ :: _, _ => []
  | fuel + 1, h :: t, needle =>
    if starts_with_chars (h :: t) needle then
      (h.2, occurrence_end (h :: t) needle.length) ::
        find_occurrences_fuel fuel ((h :: t).drop needle.length) needle
    else find_occurrences_fuel fuel t needle

/-- Embedding of _find_text_occurrences (google_drive_service.py lines 447 to
461): native index spans of every exact occurrence of the search text in the
extract-walk document text. -/
def find_text_occurrences (doc : Document) (search_text : List Char) : List (Int × Int) :=
  if search_text.isEmpty then []
  else
    find_occurrences_fuel (visit_elems doc.elements).length (visit_elems doc.elements)
      search_text

/-- A Docs API request issued by update_file_content. -/
inductive DocsRequest where
  | replaceAllText (search replace : List Char)
  | createNamedRange (startIndex endIndex : Int)
  | replaceNamedRangeContent (text : List Char)
  | deleteNamedRange
deriving DecidableEq, Repr

/-- Result of update_file_content: updated flag, match count and issued
requests. -/
structure UpdateResult where
  updated : Bool
  match_count : Nat
  requests : List DocsRequest
deriving DecidableEq, Repr

/-- Embedding of update_file_content (google_drive_service.py lines 464 to
542) from the point where the document has been fetched: an empty search text
is a request error; with no exact occurrence the function reports not found
and issues nothing; otherwise it issues either one replaceAllText request or
the named-range triple over the first occurrence. -/
def update_file_content (doc : Document) (search_text replace_text : List Char)
    (replace_all : Bool) : Except (List Char) UpdateResult :=
  if search_text.isEmpty then Except.error "search_text is required".data
  else
    let occurrences := find_text_occurrences doc search_text
    match occurrences with
    | [] => Except.ok (UpdateResult.mk false 0 [])
    | (s, e) :: _ =>
      if replace_all then
        Except.ok (UpdateResult.mk true occurrences.length
          [DocsRequest.replaceAllText search_text replace_text])
      else
        Except.ok (UpdateResult.mk true 1
          [DocsRequest.createNamedRange s e,
           DocsRequest.replaceNamedRangeContent replace_text,
           DocsRequest.deleteNamedRange])

/-- Embedding of the local _flexible_replace of run_tailoring_process
(resume_service.py lines 61 to 74): whitespace-tolerant replacement of the
first occurrence of the needle block, leaving the haystack unchanged when the
needle is empty or not found. -/
def flexible_replace (haystack needle_block replacement : List Char) : List Char × Bool :=
  if needle_block.isEmpty then (haystack, false)
  else
    match tok_search (pattern_from_block needle_block) haystack with
    | none => (haystack, false)
    | some se => (haystack.take se.1 ++ replacement ++ haystack.drop se.2, true)

/-- Python truthiness of an optional string: false for null and for the
empty string. -/
def py_truthy_str : Option (List Char) → Bool
  | none => false
  | some s => !s.isEmpty

/-- Status values written to the applications table by the tailoring worker
and pipeline. -/
inductive AppStatus where
  | pending
  | processing
  | completed
  | failed
deriving DecidableEq, Repr, Fintype

/-- Environment of one execution of run_tailoring_process, collecting the
outcomes of its external calls: whether the fetches and text-generation calls
of steps 1 to 5 succeed, the stored base summary, the resume text after the
per-history replacements, the generated summary, whether the final database
update succeeds, whether the Drive branch produced a PDF id (all Drive errors
are swallowed inside that branch), and whether persisting the PDF id
succeeds. -/
structure TailorEnv where
  fetch_ok : Bool
  base_summary : Option (List Char)
  updated_resume : List Char
  new_summary : List Char
  completed_update_ok : Bool
  drive_pdf_obtained : Bool
  pdf_update_ok : Bool
deriving DecidableEq, Repr

/-- Step 6 of run_tailoring_process (resume_service.py lines 157 to 175):
final_resume is assigned only in the branch where the stored summary is
truthy — replaced flexibly when the old summary is found, prepended
otherwise; in the falsy branch the variable is never assigned, which the
model records as none. -/
def final_resume_of (env : TailorEnv) : Option (List Char) :=
  if py_truthy_str env.base_summary then
    let pr := flexible_replace env.updated_resume (env.base_summary.getD []) env.new_summary
    some (if pr.2 then pr.1 else env.new_summary ++ '\n' :: '\n' :: env.updated_resume)
  else none

/-- Status writes performed on the applications row by one execution of
run_tailoring_process (resume_service.py lines 34 to 306), in order.  Any
exception of steps 1 to 5 reaches the outer handler, which writes failed.
Building the final update payload reads final_resume; when that variable was
never assigned the lookup raises NameError before the completed update is
issued, and the handler writes failed.  A failing completed update raises and
the handler writes failed.  After a successful completed write, the Drive
branch swallows its own errors, but a failure while persisting the obtained
PDF id raises outside that branch, and the handler then writes failed over
the already-written completed status. -/
def tailoring_status_writes (env : TailorEnv) : List AppStatus :=
  if !env.fetch_ok then [AppStatus.failed]
  else
    match final_resume_of env with
    | none => [AppStatus.failed]
    | some _ =>
      if !env.completed_update_ok then [AppStatus.failed]
      else if env.drive_pdf_obtained && !env.pdf_update_ok then
        [AppStatus.completed, AppStatus.failed]
      else [AppStatus.completed]

/-- Phase of one polling worker of process_pending_applications
(tailoring_worker.py lines 17 to 30): about to poll, about to issue the
claiming update, about to finish (write the terminal status), or done. -/
inductive WPhase where
  | poll
  | claim
  | finish
  | done
deriving DecidableEq, Repr, Fintype

/-- Shared state of two workers racing on one pending application row. -/
structure RaceState where
  status : AppStatus
  phase1 : WPhase
  phase2 : WPhase
  claimed1 : Bool
  claimed2 : Bool
deriving DecidableEq, Repr, Fintype

/-- One atomic step of a worker: the poll (a select of rows with status
pending) proceeds only when the row currently has status pending; the claim
is the update setting status to processing, issued WITHOUT any condition on
the current status; the finish writes the terminal status produced by
run_tailoring_process. -/
def worker_step (st : AppStatus) (ph : WPhase) (claimed : Bool) (outcome : AppStatus) :
    AppStatus × WPhase × Bool :=
  match ph with
  | WPhase.poll =>
    if st == AppStatus.pending then (st, WPhase.claim, claimed)
    else (st, WPhase.done, claimed)
  | WPhase.claim => (AppStatus.processing, WPhase.finish, true)
  | WPhase.finish => (outcome, WPhase.done, claimed)
  | WPhase.done => (st, WPhase.done, claimed)

/-- Interleaved step: the scheduler bit picks which worker moves. -/
def race_step (o1 o2 : AppStatus) (s : RaceState) (which : Bool) : RaceState :=
  if which then
    let r := worker_step s.status s.phase2 s.claimed2 o2
    { s with status := r.1, phase2 := r.2.1, claimed2 := r.2.2 }
  else
    let r := worker_step s.status s.phase1 s.claimed1 o1
    { s with status := r.1, phase1 := r.2.1, claimed1 := r.2.2 }

/-- Run of an interleaving schedule from a state. -/
def race_run (o1 o2 : AppStatus) (sched : List Bool) (s : RaceState) : RaceState :=
  sched.foldl (race_step o1 o2) s

/-- Initial race state: one pending row, both workers about to poll. -/
def race_init : RaceState :=
  RaceState.mk AppStatus.pending WPhase.poll WPhase.poll false false

/-- Schedule interleaving the two polls before either claiming update:
worker one polls, worker two polls, then both claim and both finish. -/
def demo_schedule : List Bool := [false, true, false, true, false, true]

/-- Invariant of the race: the status is one of the four reachable values;
while the row is still pending neither worker has passed its claim; a
processing status means some claimant has not yet finished; and when both
workers are done the status is one of the two terminal outcomes. -/
def race_inv (o1 o2 : AppStatus) (s : RaceState) : Bool :=
  (s.status == AppStatus.pending || s.status == AppStatus.processing ||
     s.status == o1 || s.status == o2) &&
  (!(s.status == AppStatus.pending) ||
     ((s.phase1 == WPhase.poll || s.phase1 == WPhase.claim) &&
      (s.phase2 == WPhase.poll || s.phase2 == WPhase.claim))) &&
  (!(s.status == AppStatus.processing) ||
     (s.phase1 == WPhase.finish || s.phase2 == WPhase.finish)) &&
  (!(s.phase1 == WPhase.done && s.phase2 == WPhase.done) ||
     (s.status == o1 || s.status == o2))

/-- Paragraph element with both indices and a text run present. -/
def pe_run (s e : Int) (t : List Char) : ParaElement :=
  ParaElement.mk (some s) (some e) (some (TextRun.mk t))

/-- Well-formedness of a paragraph element as delivered by the remote
document service: when a text run and both native indices are present, the
native width equals the character count of the content. -/
def well_formed_pe (pe : ParaElement) : Bool :=
  match pe.textRun, pe.startIndex, pe.endIndex with
  | some tr, some s, some e => e == s + tr.content.length
  | _, _, _ => true

/-- Well-formedness of the paragraph runs read by the flatten walk. -/
def well_formed_doc (d : Document) : Bool :=
  d.elements.all fun el =>
    match el with
    | .paragraph _ _ _ pes => pes.all well_formed_pe
    | _ => false || true

/-- Demo document for the no-match safety claim: one paragraph, no bullet. -/
def c1_doc : Document :=
  Document.mk [Element.paragraph (some 0) (some 7) false [pe_run 1 7 "Hello ".data]]

/-- Demo document whose only text sits inside a table cell. -/
def c4_table_doc : Document :=
  Document.mk [Element.table (some 0) (some 10)
    [[[Element.paragraph (some 2) (some 4) false [pe_run 2 4 ['X', '\n']]]]]]

/-- Demo document with a paragraph, a two-cell table and a second paragraph,
for the reading-order statement of the extract walk. -/
def c4_order_doc : Document :=
  Document.mk
    [Element.paragraph (some 0) (some 3) false [pe_run 0 3 "P1\n".data],
     Element.table (some 3) (some 9)
       [[[Element.paragraph (some 4) (some 6) false [pe_run 4 6 "C1".data]],
         [Element.paragraph (some 6) (some 8) false [pe_run 6 8 "C2".data]]]],
     Element.paragraph (some 9) (some 12) false [pe_run 9 12 "P2\n".data]]

/-- Demo document for the snapshot invariants: two valid runs with a native
gap between them, one run lacking its end index, one empty run, and a
section break. -/
def c5_doc : Document :=
  Document.mk
    [Element.paragraph (some 0) (some 3) false
      [pe_run 1 3 "ab".data,
       ParaElement.mk (some 3) none (some (TextRun.mk "zz".data)),
       pe_run 3 3 []],
     Element.sectionBreak,
     Element.paragraph (some 10) (some 13) false [pe_run 10 12 "cd".data]]

/-- First demo segment: flat range zero to two, native range one to three. -/
def c6_seg_a : Segment := Segment.mk 0 2 1 3 "ab".data

/-- Second demo segment, abutting the first at flat offset two but starting
at native index ten (a native discontinuity, as across table cells). -/
def c6_seg_b : Segment := Segment.mk 2 4 10 12 "cd".data

/-- Demo document with a single bulleted paragraph whose run is "X". -/
def c7_doc : Document :=
  Document.mk [Element.paragraph (some 0) (some 3) true [pe_run 1 2 ['X']]]

/-- Demo pipeline environment where everything succeeds except persisting the
obtained Drive PDF id. -/
def c8_env : TailorEnv :=
  TailorEnv.mk true (some "Old".data) "Old".data "New".data true true false

/-- Demo pipeline environment with a missing stored summary and every
external call succeeding. -/
def c9_env : TailorEnv :=
  TailorEnv.mk true none "Resume".data "New".data true false true

/-- One step of the spec-side pattern reading, processing a block character
from the right: a whitespace character joins an existing leading whitespace
token instead of adding a second one. -/
def spec_tok_step (c : Char) (acc : List Tok) : List Tok :=
  if is_flex_ws c then
    match acc with
    | Tok.ws :: rest => Tok.ws :: rest
    | [] => [Tok.ws]
    | Tok.lit d :: rest => Tok.ws :: Tok.lit d :: rest
  else Tok.lit c :: acc

/-- Spec-side reading of the compiled fuzzy pattern, written from the spec
sentence for comparison with pattern_from_block: every maximal run of
whitespace (non-breaking and zero-width spaces included) becomes one
one-or-more-whitespace token, every other character is matched literally. -/
def spec_tokens_of_block (block : List Char) : List Tok :=
  block.foldr spec_tok_step []

/-- Drop one leading whitespace token, if present. -/
def strip_leading_ws_tok : List Tok → List Tok
  | [] => []
  | Tok.ws :: rest => rest
  | Tok.lit c :: rest => Tok.lit c :: rest

/-- Contiguity of a segment list starting at a flat offset: each segment
starts where the previous one ended, and spans exactly its text. -/
def seg_contig : Nat → List Segment → Bool
  | _, [] => true
  | off, s :: rest =>
    s.flat_start == off && s.flat_end == off + s.text.length && seg_contig s.flat_end rest

/-- Whether a body element is a paragraph. -/
def is_paragraph_element : Element → Bool
  | .paragraph _ _ _ _ => true
  | _ => false

/-- Spec-side statement that a native range overlaps some bulleted paragraph
of the document: there is a paragraph element with both native indices whose
range intersects the given range and which carries bullet styling. -/
def overlaps_bulleted_paragraph (d : Document) (ds de : Int) : Prop :=
  ∃ el ∈ d.elements, ∃ s e pes,
    el = Element.paragraph (some s) (some e) true pes ∧ ¬(e ≤ ds) ∧ ¬(de ≤ s)


/-! Lemmas about the pattern builders and the matcher. -/

theorem ws_class_eq_is_flex_ws (c : Char) : ws_class c = is_flex_ws c := rfl

theorem spec_tokens_cons (c : Char) (rest : List Char) :
    spec_tokens_of_block (c :: rest) = spec_tok_step c (spec_tokens_of_block rest) := rfl

theorem scan_block_spec (l : List Char) :
    scan_block l false = spec_tokens_of_block l ∧
    scan_block l true = strip_leading_ws_tok (spec_tokens_of_block l) := by
  induction l with
  | nil => exact ⟨rfl, rfl⟩
  | cons c rest ih =>
    obtain ⟨ih0, ih1⟩ := ih
    by_cases h : is_flex_ws c = true
    · have h0 : scan_block (c :: rest) false = Tok.ws :: scan_block rest true := by
        simp [scan_block, h]
      have h1 : scan_block (c :: rest) true = scan_block rest true := by
        simp [scan_block, h]
      have hstep : spec_tok_step c (spec_tokens_of_block rest) =
          match spec_tokens_of_block rest with
          | Tok.ws :: r => Tok.ws :: r
          | [] => [Tok.ws]
          | Tok.lit d :: r => Tok.ws :: Tok.lit d :: r := by
        simp [spec_tok_step, h]
      constructor
      · rw [h0, ih1, spec_tokens_cons, hstep]
        cases hs : spec_tokens_of_block rest with
        | nil => simp [strip_leading_ws_tok]
        | cons t ts => cases t <;> simp [strip_leading_ws_tok]
      · rw [h1, ih1, spec_tokens_cons, hstep]
        cases hs : spec_tokens_of_block rest with
        | nil => simp [strip_leading_ws_tok]
        | cons t ts => cases t <;> simp [strip_leading_ws_tok]
    · have h0 : scan_block (c :: rest) false = Tok.lit c :: scan_block rest false := by
        simp [scan_block, h]
      have h1 : scan_block (c :: rest) true = Tok.lit c :: scan_block rest false := by
        simp [scan_block, h]
      have hstep : spec_tok_step c (spec_tokens_of_block rest) =
          Tok.lit c :: spec_tokens_of_block rest := by
        simp [spec_tok_step, h]
      exact ⟨by rw [h0, ih0, spec_tokens_cons, hstep],
             by rw [h1, ih0, spec_tokens_cons, hstep]; rfl⟩

theorem tok_match_single_ws (l : List Char) :
    tok_match [Tok.ws] l = (!l.isEmpty && l.all ws_class) := by
  induction l with
  | nil => rfl
  | cons d ds ih =>
    simp only [tok_match, tok_match_go] at ih ⊢
    cases ds with
    | nil => simp [tok_match_go]
    | cons e es =>
      simp only [tok_match_go, List.isEmpty_cons, Bool.not_false, Bool.true_and] at ih ⊢
      rw [ih]
      by_cases hd : ws_class d <;> by_cases he : ws_class e <;>
        simp [hd, he, List.all_cons]

theorem length_dropWhile_le_self (p : Char → Bool) (l : List Char) :
    (l.dropWhile p).length ≤ l.length := by
  induction l with
  | nil => simp
  | cons c rest ih =>
    by_cases h : p c = true
    · rw [List.dropWhile_cons_of_pos h]; exact Nat.le_succ_of_le ih
    · rw [List.dropWhile_cons_of_neg (by simp [h])]

theorem scan_block_true_dropWhile (l : List Char) :
    scan_block l true = scan_block (l.dropWhile is_flex_ws) false := by
  induction l with
  | nil => rfl
  | cons c rest ih =>
    by_cases h : is_flex_ws c = true
    · rw [show scan_block (c :: rest) true = scan_block rest true by simp [scan_block, h]]
      rw [ih, List.dropWhile_cons_of_pos h]
    · rw [List.dropWhile_cons_of_neg (by simp [h])]
      simp [scan_block, h]

theorem tok_match_ws_prepend (run tail : List Char) (T : List Tok)
    (hne : run ≠ []) (hws : run.all ws_class = true) (hm : tok_match T tail = true) :
    tok_match (Tok.ws :: T) (run ++ tail) = true := by
  induction run with
  | nil => exact absurd rfl hne
  | cons r rs ih =>
    have hpair := Bool.and_eq_true_iff.mp (by rwa [List.all_cons] at hws)
    have hr : ws_class r = true := hpair.1
    have hrs : rs.all ws_class = true := hpair.2
    cases rs with
    | nil =>
      simp only [List.nil_append, List.cons_append]
      simp [tok_match, tok_match_go, hr]
      left
      exact hm
    | cons r2 rs2 =>
      have ih2 := ih (by simp) hrs
      simp only [List.cons_append] at ih2 ⊢
      simp [tok_match, tok_match_go, hr]
      right
      simpa [tok_match, tok_match_go] using ih2

theorem scan_block_self_match_bounded :
    ∀ (n : Nat) (l : List Char), l.length ≤ n → tok_match (scan_block l false) l = true := by
  intro n
  induction n with
  | zero =>
    intro l hl
    have : l = [] := List.length_eq_zero.mp (Nat.le_zero.mp hl)
    subst this; rfl
  | succ m ih =>
    intro l hl
    cases l with
    | nil => rfl
    | cons c rest =>
      by_cases h : is_flex_ws c = true
      · have hsplit : (c :: rest).takeWhile is_flex_ws ++ (c :: rest).dropWhile is_flex_ws
            = c :: rest := List.takeWhile_append_dropWhile is_flex_ws (c :: rest)
        have hscan : scan_block (c :: rest) false
            = Tok.ws :: scan_block ((c :: rest).dropWhile is_flex_ws) false := by
          rw [show scan_block (c :: rest) false = Tok.ws :: scan_block rest true by
            simp [scan_block, h]]
          rw [scan_block_true_dropWhile, List.dropWhile_cons_of_pos h]
      -- the dropped prefix is a nonempty whitespace run, the suffix matches by induction
        have htail : tok_match (scan_block ((c :: rest).dropWhile is_flex_ws) false)
            ((c :: rest).dropWhile is_flex_ws) = true := by
          apply ih
          rw [List.dropWhile_cons_of_pos h]
          exact Nat.le_trans (length_dropWhile_le_self _ _) (Nat.le_of_succ_le_succ hl)
        have hrun_ne : (c :: rest).takeWhile is_flex_ws ≠ [] := by
          rw [List.takeWhile_cons_of_pos h]; simp
        have hrun_ws : ((c :: rest).takeWhile is_flex_ws).all ws_class = true := by
          simp only [List.all_eq_true]
          intro x hx
          rw [ws_class_eq_is_flex_ws]
          exact List.mem_takeWhile_imp hx
        have := tok_match_ws_prepend _ _ _ hrun_ne hrun_ws htail
        rw [hsplit] at this
        rw [hscan]
        exact this
      · have hscan : scan_block (c :: rest) false = Tok.lit c :: scan_block rest false := by
          simp [scan_block, h]
        rw [hscan]
        simp [tok_match, tok_match_go]
        exact ih rest (Nat.le_of_succ_le_succ hl)

theorem scan_block_self_match (l : List Char) :
    tok_match (scan_block l false) l = true :=
  scan_block_self_match_bounded l.length l (Nat.le_refl _)

theorem intercalate_single (sep : List Tok) (x : List Tok) :
    List.intercalate sep [x] = x := by
  simp [List.intercalate]

/-- C2: for every original block, the compiled fuzzy pattern turns each
maximal whitespace run (non-breaking and zero-width spaces included) into a
single one-or-more-whitespace token and matches every other character
literally — stated as equality with the spec-side token reading — the
one-or-more-whitespace token matches exactly the nonempty all-whitespace
chunks, and the block joining A and B by a blank line matches both the
CR LF variant and the double-NBSP variant of the document text, under the
plain builder and under the docs-aware builder. -/
theorem C2_pattern_whitespace_runs :
    (∀ block : List Char, pattern_from_block block = spec_tokens_of_block block) ∧
    (∀ l : List Char, tok_match [Tok.ws] l = (!l.isEmpty && l.all ws_class)) ∧
    pattern_from_block "A\n\nB".data = [Tok.lit 'A', Tok.ws, Tok.lit 'B'] ∧
    tok_match (pattern_from_block "A\n\nB".data) "A\r\n\r\nB".data = true ∧
    tok_match (pattern_from_block "A\n\nB".data) "A  B".data = true ∧
    tok_match (pattern_from_block_docs "A\n\nB".data) "A\r\n\r\nB".data = true ∧
    tok_match (pattern_from_block_docs "A\n\nB".data) "A  B".data = true :=
  ⟨fun block => (scan_block_spec block).1, tok_match_single_ws,
   by decide, by decide, by decide, by decide, by decide⟩

theorem py_digit_not_space (c : Char) (h : py_is_digit c = true) :
    py_is_space c = false := by
  rcases Bool.eq_false_or_eq_true (py_is_space c) with ht | hf
  · exfalso
    simp [py_is_digit, nd_digit_ranges] at h
    simp [py_is_space] at ht
    omega
  · exact hf

theorem py_digit_not_break (c : Char) (h : py_is_digit c = true) :
    is_line_break c = false := by
  rcases Bool.eq_false_or_eq_true (is_line_break c) with ht | hf
  · exfalso
    simp [py_is_digit, nd_digit_ranges] at h
    simp [is_line_break] at ht
    omega
  · exact hf

theorem py_digit_not_glyph (c : Char) (h : py_is_digit c = true) :
    bullet_glyphs.contains c = false := by
  rcases Bool.eq_false_or_eq_true (bullet_glyphs.contains c) with ht | hf
  · exfalso
    have hmem : c ∈ bullet_glyphs := by simpa using ht
    have hcases : c = '*' ∨ c = '-' ∨ c = Char.ofNat 0x2022 ∨ c = Char.ofNat 0x2013
        ∨ c = Char.ofNat 0x2014 := by simpa [bullet_glyphs] using hmem
    rcases hcases with rfl | rfl | rfl | rfl | rfl <;> exact absurd h (by decide)
  · exact hf

theorem dropWhile_digits_append (ds l : List Char) (h : ds.all py_is_digit = true) :
    (ds ++ l).dropWhile py_is_digit = l.dropWhile py_is_digit := by
  induction ds with
  | nil => rfl
  | cons d rest ih =>
    rw [List.all_cons] at h
    obtain ⟨hd, hrest⟩ := Bool.and_eq_true_iff.mp h
    rw [List.cons_append, List.dropWhile_cons_of_pos hd]
    exact ih hrest

theorem bullet_prefix_match_glyph (g : Char) (body : List Char)
    (hg : bullet_glyphs.contains g = true) (hgs : py_is_space g = false) :
    bullet_prefix_match (g :: ' ' :: body) = some (body.dropWhile py_is_space) := by
  have h1 : (g :: ' ' :: body).dropWhile py_is_space = g :: ' ' :: body := by
    rw [List.dropWhile_cons_of_neg]
    simp [hgs]
  have h2 : py_is_space ' ' = true := by decide
  have hgm : g ∈ bullet_glyphs := by simpa using hg
  unfold bullet_prefix_match
  rw [h1]
  simp [hg, hgm, h2, List.dropWhile_cons_of_pos h2]

theorem bullet_prefix_match_number (digits : List Char) (p : Char) (body : List Char)
    (hne : digits ≠ []) (hall : digits.all py_is_digit = true) (hp : p = '.' ∨ p = ')') :
    bullet_prefix_match (digits ++ p :: ' ' :: body)
      = some (body.dropWhile py_is_space) := by
  cases digits with
  | nil => exact absurd rfl hne
  | cons d ds =>
    have hd1 : py_is_digit d = true := by
      have h := hall
      rw [List.all_cons] at h
      exact (Bool.and_eq_true_iff.mp h).1
    have hs1 : py_is_space d = false := py_digit_not_space d hd1
    have hglyph : bullet_glyphs.contains d = false := py_digit_not_glyph d hd1
    have hpd : py_is_digit p = false := by rcases hp with rfl | rfl <;> decide
    have hpp : (p == '.' || p == ')') = true := by rcases hp with rfl | rfl <;> decide
    have h1 : ((d :: ds) ++ p :: ' ' :: body).dropWhile py_is_space
        = d :: (ds ++ p :: ' ' :: body) := by
      rw [List.cons_append, List.dropWhile_cons_of_neg (by simp [hs1])]
    have hdrop : (d :: (ds ++ p :: ' ' :: body)).dropWhile py_is_digit
        = p :: ' ' :: body := by
      rw [show d :: (ds ++ p :: ' ' :: body) = (d :: ds) ++ p :: ' ' :: body from rfl]
      rw [dropWhile_digits_append (d :: ds) (p :: ' ' :: body) hall]
      rw [List.dropWhile_cons_of_neg (by simp [hpd])]
    have h2 : py_is_space ' ' = true := by decide
    have hgm : d ∉ bullet_glyphs := by simpa using hglyph
    unfold bullet_prefix_match
    rw [h1]
    simp [hglyph, hgm, hd1, hdrop, hpp, hp, h2, List.dropWhile_cons_of_pos h2]

theorem py_splitlines_go_no_break (l : List Char) :
    ∀ acc : List Char, l.all (fun c => !is_line_break c) = true →
      py_splitlines_go l acc =
        if (acc.reverse ++ l).isEmpty then [] else [acc.reverse ++ l] := by
  induction l with
  | nil =>
    intro acc _
    rw [py_splitlines_go.eq_1]
    cases acc <;> simp
  | cons c rest ih =>
    intro acc hall
    rw [List.all_cons] at hall
    obtain ⟨hc', hrest⟩ := Bool.and_eq_true_iff.mp hall
    have hc : is_line_break c = false := by simpa using hc'
    have hshape : ∀ r1 : List Char, c = '\r' → rest = '\n' :: r1 → False := by
      intro r1 h1 _
      subst h1
      simp [is_line_break] at hc
    rw [py_splitlines_go.eq_3 acc c rest hshape, hc]
    simp only [Bool.false_eq_true, if_false]
    rw [ih (c :: acc) hrest]
    have hadd : (c :: acc).reverse ++ rest = acc.reverse ++ c :: rest := by simp
    rw [hadd]

theorem py_splitlines_no_break (l : List Char)
    (h : l.all (fun c => !is_line_break c) = true) (hne : l ≠ []) :
    py_splitlines l = [l] := by
  unfold py_splitlines
  rw [py_splitlines_go_no_break l [] h]
  simp [hne]

theorem pattern_from_block_docs_single_line (line : List Char)
    (hnb : line.all (fun c => !is_line_break c) = true) (hne : line ≠ []) :
    pattern_from_block_docs line = scan_block (line_body line) false := by
  unfold pattern_from_block_docs
  rw [py_splitlines_no_break line hnb hne, List.map_singleton, intercalate_single]

/-- C3: a leading per-line bullet or number prefix of the block is optional
in the docs-aware pattern: for every bullet glyph (asterisk, hyphen, bullet,
en dash, em dash) and for every nonempty run of decimal digits followed by a
dot or closing parenthesis, the prefix plus its following space is
recognised and removed by the prefix matcher; a single line carrying such a
prefix compiles to exactly the pattern of its bare line body; glyph-free
text matches its own compiled pattern, so document text carrying only the
line bodies with no literal glyphs is matched; and the concrete prefixed
blocks — dash, asterisk, bullet, en dash, em dash, two numbered forms and
an Arabic-Indic numbered form — all compile to glyph-free patterns, the
two-line dashed block matching the bare two-line body text. -/
theorem C3_bullet_prefix_optional :
    (∀ g ∈ bullet_glyphs, ∀ body : List Char,
      bullet_prefix_match (g :: ' ' :: body) = some (body.dropWhile py_is_space)) ∧
    (∀ (digits : List Char) (p : Char) (body : List Char),
      digits ≠ [] → digits.all py_is_digit = true → p = '.' ∨ p = ')' →
      bullet_prefix_match (digits ++ p :: ' ' :: body)
        = some (body.dropWhile py_is_space)) ∧
    (∀ g ∈ bullet_glyphs, ∀ body : List Char,
      body.all (fun c => !is_line_break c) = true →
      pattern_from_block_docs (g :: ' ' :: body)
        = scan_block (body.dropWhile py_is_space) false) ∧
    (∀ (digits : List Char) (p : Char) (body : List Char),
      digits ≠ [] → digits.all py_is_digit = true → p = '.' ∨ p = ')' →
      body.all (fun c => !is_line_break c) = true →
      pattern_from_block_docs (digits ++ p :: ' ' :: body)
        = scan_block (body.dropWhile py_is_space) false) ∧
    (∀ l : List Char, tok_match (scan_block l false) l = true) ∧
    tok_match (pattern_from_block_docs "- itemA\n- itemB".data) "itemA\nitemB".data = true ∧
    pattern_from_block_docs "- item".data
      = [Tok.lit 'i', Tok.lit 't', Tok.lit 'e', Tok.lit 'm'] ∧
    pattern_from_block_docs "* item".data
      = [Tok.lit 'i', Tok.lit 't', Tok.lit 'e', Tok.lit 'm'] ∧
    pattern_from_block_docs "\u2022 item".data
      = [Tok.lit 'i', Tok.lit 't', Tok.lit 'e', Tok.lit 'm'] ∧
    pattern_from_block_docs "\u2013 item".data
      = [Tok.lit 'i', Tok.lit 't', Tok.lit 'e', Tok.lit 'm'] ∧
    pattern_from_block_docs "\u2014 item".data
      = [Tok.lit 'i', Tok.lit 't', Tok.lit 'e', Tok.lit 'm'] ∧
    pattern_from_block_docs "12. item".data
      = [Tok.lit 'i', Tok.lit 't', Tok.lit 'e', Tok.lit 'm'] ∧
    pattern_from_block_docs "3) item".data
      = [Tok.lit 'i', Tok.lit 't', Tok.lit 'e', Tok.lit 'm'] ∧
    pattern_from_block_docs "\u0663. item".data
      = [Tok.lit 'i', Tok.lit 't', Tok.lit 'e', Tok.lit 'm'] := by
  have hsall : ∀ g ∈ bullet_glyphs, py_is_space g = false := by decide
  have hblall : ∀ g ∈ bullet_glyphs, is_line_break g = false := by decide
  have hglyph_strip : ∀ g ∈ bullet_glyphs, ∀ body : List Char,
      bullet_prefix_match (g :: ' ' :: body) = some (body.dropWhile py_is_space) := by
    intro g hg body
    exact bullet_prefix_match_glyph g body (by simpa using hg) (hsall g hg)
  have hglyph_pattern : ∀ g ∈ bullet_glyphs, ∀ body : List Char,
      body.all (fun c => !is_line_break c) = true →
      pattern_from_block_docs (g :: ' ' :: body)
        = scan_block (body.dropWhile py_is_space) false := by
    intro g hg body hnb
    have hall : (g :: ' ' :: body).all (fun c => !is_line_break c) = true := by
      rw [List.all_cons, List.all_cons, hnb, hblall g hg]
      decide
    rw [pattern_from_block_docs_single_line _ hall (by simp)]
    unfold line_body
    rw [hglyph_strip g hg body]
  have hnum_pattern : ∀ (digits : List Char) (p : Char) (body : List Char),
      digits ≠ [] → digits.all py_is_digit = true → p = '.' ∨ p = ')' →
      body.all (fun c => !is_line_break c) = true →
      pattern_from_block_docs (digits ++ p :: ' ' :: body)
        = scan_block (body.dropWhile py_is_space) false := by
    intro digits p body hne hd hp hnb
    have hdig_nb : digits.all (fun c => !is_line_break c) = true := by
      rw [List.all_eq_true]
      intro d hdm
      have hdd : py_is_digit d = true := List.all_eq_true.mp hd d hdm
      simp [py_digit_not_break d hdd]
    have hpb : is_line_break p = false := by rcases hp with rfl | rfl <;> decide
    have hall : ((digits ++ p :: ' ' :: body).all fun c => !is_line_break c) = true := by
      rw [List.all_append, List.all_cons, List.all_cons, hdig_nb, hnb, hpb]
      decide
    have hne2 : digits ++ p :: ' ' :: body ≠ [] := by simp
    rw [pattern_from_block_docs_single_line _ hall hne2]
    unfold line_body
    rw [bullet_prefix_match_number digits p body hne hd hp]
  exact ⟨hglyph_strip, bullet_prefix_match_number, hglyph_pattern, hnum_pattern,
    scan_block_self_match, by decide, by decide, by decide, by decide, by decide,
    by decide, by decide, by decide, by decide⟩

theorem C3_witness :
    pattern_from_block_docs ('-' :: ' ' :: "item".data)
      = scan_block ("item".data.dropWhile py_is_space) false ∧
    pattern_from_block_docs (['1'] ++ '.' :: ' ' :: "item".data)
      = scan_block ("item".data.dropWhile py_is_space) false :=
  ⟨C3_bullet_prefix_optional.2.2.1 '-' (by decide) "item".data (by decide),
   C3_bullet_prefix_optional.2.2.2.1 ['1'] '.' "item".data (by decide) (by decide)
     (Or.inl rfl) (by decide)⟩

/-! Soundness of the anchored matcher and the search loop. -/

theorem match_end_go_sound (chars : List Char) :
    ∀ (toks : List Tok) (n : Nat), match_end_go chars toks = some n →
      tok_match_go (chars.take n) toks = true := by
  induction chars with
  | nil =>
    intro toks n h
    cases toks with
    | nil =>
      simp [match_end_go] at h
      subst h
      rfl
    | cons t ts => simp [match_end_go] at h
  | cons d ds ih =>
    intro toks n h
    cases toks with
    | nil =>
      simp [match_end_go] at h
      subst h
      rfl
    | cons t ts =>
      cases t with
      | lit c =>
        rw [match_end_go] at h
        by_cases hc : (c == d) = true
        · rw [if_pos hc] at h
          obtain ⟨m, hm, hn⟩ := Option.map_eq_some.mp h
          subst hn
          rw [List.take_succ_cons, tok_match_go, hc, Bool.true_and]
          exact ih ts m hm
        · rw [if_neg hc] at h
          exact absurd h (by simp)
      | ws =>
        rw [match_end_go] at h
        by_cases hw : ws_class d = true
        · rw [if_pos hw] at h
          cases h2 : match_end_go ds (Tok.ws :: ts) with
          | some m =>
            rw [h2] at h
            injection h with hn
            subst hn
            rw [List.take_succ_cons, tok_match_go, hw, Bool.true_and]
            rw [ih (Tok.ws :: ts) m h2]
            simp
          | none =>
            rw [h2] at h
            obtain ⟨m, hm, hn⟩ := Option.map_eq_some.mp h
            subst hn
            rw [List.take_succ_cons, tok_match_go, hw, Bool.true_and]
            rw [ih ts m hm]
            simp
        · rw [if_neg hw] at h
          exact absurd h (by simp)

theorem tok_search_go_some (toks : List Tok) (chars : List Char) :
    ∀ (pos s e : Nat), tok_search_go toks chars pos = some (s, e) →
      ∃ i n, match_end_go (chars.drop i) toks = some n := by
  induction chars with
  | nil =>
    intro pos s e h
    rw [tok_search_go] at h
    cases hm : match_end toks [] with
    | some n => exact ⟨0, n, hm⟩
    | none => rw [hm] at h; exact absurd h (by simp)
  | cons c rest ih =>
    intro pos s e h
    rw [tok_search_go] at h
    cases hm : match_end toks (c :: rest) with
    | some n => exact ⟨0, n, hm⟩
    | none =>
      rw [hm] at h
      obtain ⟨i, n, hi⟩ := ih (pos + 1) s e h
      exact ⟨i + 1, n, by simpa using hi⟩

theorem starts_with_chars_take (needle : List Char) :
    ∀ hay : List (Char × Int), starts_with_chars hay needle = true →
      (hay.map Prod.fst).take needle.length = needle := by
  induction needle with
  | nil => intro hay _; simp
  | cons d ds ih =>
    intro hay h
    cases hay with
    | nil => simp [starts_with_chars] at h
    | cons p rest =>
      obtain ⟨c, i⟩ := p
      rw [starts_with_chars] at h
      obtain ⟨hc, hrest⟩ := Bool.and_eq_true_iff.mp h
      simp only [List.map_cons, List.length_cons, List.take_succ_cons]
      rw [ih rest hrest]
      have : c = d := by simpa using hc
      rw [this]

theorem find_occurrences_fuel_nil (needle : List Char) :
    ∀ (fuel : Nat) (hay : List (Char × Int)),
      (∀ i : Nat, ((hay.map Prod.fst).drop i).take needle.length ≠ needle) →
      find_occurrences_fuel fuel hay needle = [] := by
  intro fuel
  induction fuel with
  | zero => intro hay _; cases hay <;> rfl
  | succ m ih =>
    intro hay hno
    cases hay with
    | nil => rfl
    | cons h t =>
      by_cases hsw : starts_with_chars (h :: t) needle = true
      · exact absurd (by simpa using starts_with_chars_take needle (h :: t) hsw) (hno 0)
      · rw [find_occurrences_fuel, if_neg hsw]
        apply ih
        intro i
        have := hno (i + 1)
        simpa using this

/-- C1: when the original block occurs nowhere in the flattened document
text — neither as an exact substring (the extract-walk text) nor as a fuzzy
match of the compiled docs-aware pattern — the flexible patch returns
updated false with zero matches and issues no batchUpdate request, the
exact-match updater reports not found and issues no request, and folding any
request interpreter over the issued requests leaves the document unchanged. -/
theorem C1_no_match_is_noop (doc : Document) (original final : List Char) (replace_all : Bool)
    (hfuzzy : ∀ i n : Nat,
      tok_match (pattern_from_block_docs original)
        (((flatten_doc_text_with_map doc).1.drop i).take n) = false)
    (hexact : ∀ i : Nat,
      ((extract_full_text doc).drop i).take original.length ≠ original) :
    replace_text_block_flexible doc original final = ReplaceResult.mk false 0 [] ∧
    update_file_content doc original final replace_all
      = Except.ok (UpdateResult.mk false 0 []) ∧
    (∀ apply_req : Document → Request → Document,
      ((replace_text_block_flexible doc original final).requests).foldl apply_req doc = doc) := by
  have hone : original ≠ [] := by
    intro h
    subst h
    exact hexact 0 (by simp)
  have hsearch : tok_search (pattern_from_block_docs original)
      (flatten_doc_text_with_map doc).1 = none := by
    cases hs : tok_search (pattern_from_block_docs original)
        (flatten_doc_text_with_map doc).1 with
    | none => rfl
    | some se =>
      obtain ⟨s, e⟩ := se
      obtain ⟨i, n, hm⟩ := tok_search_go_some _ _ 0 s e hs
      have hmt := match_end_go_sound _ _ _ hm
      have := hfuzzy i n
      rw [tok_match] at this
      rw [this] at hmt
      exact absurd hmt (by simp)
  have hflex : replace_text_block_flexible doc original final = ReplaceResult.mk false 0 [] := by
    unfold replace_text_block_flexible
    rw [if_neg (by simpa [List.isEmpty_iff] using hone)]
    simp only [hsearch]
  have hocc : find_text_occurrences doc original = [] := by
    unfold find_text_occurrences
    rw [if_neg (by simpa [List.isEmpty_iff] using hone)]
    exact find_occurrences_fuel_nil original _ _ (fun i => hexact i)
  have hupd : update_file_content doc original final replace_all
      = Except.ok (UpdateResult.mk false 0 []) := by
    unfold update_file_content
    rw [if_neg (by simpa [List.isEmpty_iff] using hone)]
    simp only [hocc]
  refine ⟨hflex, hupd, fun apply_req => ?_⟩
  rw [hflex]
  rfl

theorem C1_witness :
    (∀ i n : Nat,
      tok_match (pattern_from_block_docs "zz".data)
        (((flatten_doc_text_with_map c1_doc).1.drop i).take n) = false) ∧
    (∀ i : Nat,
      ((extract_full_text c1_doc).drop i).take "zz".data.length ≠ "zz".data) ∧
    replace_text_block_flexible c1_doc "zz".data "w".data = ReplaceResult.mk false 0 [] ∧
    update_file_content c1_doc "zz".data "w".data false
      = Except.ok (UpdateResult.mk false 0 []) := by
  have hlen : "Hello ".data.length = 6 := rfl
  have hfuzzy : ∀ i n : Nat,
      tok_match (pattern_from_block_docs "zz".data)
        (((flatten_doc_text_with_map c1_doc).1.drop i).take n) = false := by
    intro i n
    have hflat : (flatten_doc_text_with_map c1_doc).1 = "Hello ".data := by decide
    rw [hflat]
    rcases le_or_lt i 6 with hi | hi
    · rcases le_or_lt n 6 with hn | hn
      · interval_cases i <;> interval_cases n <;> decide
      · have hts : ("Hello ".data.drop i).take n = "Hello ".data.drop i := by
          apply List.take_of_length_le
          rw [List.length_drop]
          omega
        rw [hts]
        interval_cases i <;> decide
    · rw [List.drop_eq_nil_of_le (by omega)]
      simp only [List.take_nil]
      decide
  have hexact : ∀ i : Nat,
      ((extract_full_text c1_doc).drop i).take "zz".data.length ≠ "zz".data := by
    intro i
    have hext : extract_full_text c1_doc = "Hello ".data := by decide
    rw [hext]
    rcases le_or_lt i 6 with hi | hi
    · interval_cases i <;> decide
    · rw [List.drop_eq_nil_of_le (by omega)]
      decide
  obtain ⟨h1, h2, _⟩ := C1_no_match_is_noop c1_doc "zz".data "w".data false hfuzzy hexact
  exact ⟨hfuzzy, hexact, h1, h2⟩

theorem doc_runs_of_elements_cons (el : Element) (rest : List Element) :
    doc_runs_of_elements (el :: rest) = element_runs el ++ doc_runs_of_elements rest := rfl

/-- C4 counterexample: a document whose only text run lives inside a table
cell.  The extract walk sees the run, but the snapshot builder used by the
flexible patch produces an empty flat text, so the block is invisible to
matching and the patch reports no update. -/
theorem C4_counterexample :
    extract_full_text c4_table_doc = "X\n".data ∧
    (flatten_doc_text_with_map c4_table_doc).1 = [] ∧
    (flatten_doc_text_with_map c4_table_doc).2 = [] ∧
    (replace_text_block_flexible c4_table_doc ['X'] "Y".data).updated = false := by
  decide

/-- C4 amended: the exact-match text extractor does recurse into tables,
visiting rows and cells in document order, but the snapshot builder used by
fuzzy matching visits only top-level paragraph elements — its output is
unchanged when every non-paragraph element is filtered away — so table-cell
runs never reach the flat text used for matching; on the demo document the
extract walk reads in natural order. -/
theorem C4_amended :
    (∀ (si ei : Option Int) (rows : List (List (List Element))) (rest : List Element),
      visit_elems (Element.table si ei rows :: rest) = visit_rows rows ++ visit_elems rest) ∧
    (∀ (r : List (List Element)) (rs : List (List (List Element))),
      visit_rows (r :: rs) = visit_row r ++ visit_rows rs) ∧
    (∀ (c : List Element) (cs : List (List Element)),
      visit_row (c :: cs) = visit_elems c ++ visit_row cs) ∧
    (∀ els : List Element,
      doc_runs_of_elements els = doc_runs_of_elements (els.filter is_paragraph_element)) ∧
    (∀ els : List Element,
      (flatten_doc_text_with_map (Document.mk els)).1
        = (flatten_doc_text_with_map (Document.mk (els.filter is_paragraph_element))).1) ∧
    extract_full_text c4_order_doc = "P1\nC1C2P2\n".data := by
  have hfilter : ∀ els : List Element,
      doc_runs_of_elements els = doc_runs_of_elements (els.filter is_paragraph_element) := by
    intro els
    induction els with
    | nil => rfl
    | cons el rest ih =>
      cases el <;>
        simp [doc_runs_of_elements_cons, element_runs, is_paragraph_element,
          List.filter_cons, ih]
  refine ⟨fun _ _ _ _ => rfl, fun _ _ => rfl, fun _ _ => rfl, hfilter, ?_, by decide⟩
  intro els
  show (flatten_go (doc_runs_of_elements els) 0).1 = _
  rw [hfilter els]
  rfl

/-! Lemmas for the snapshot builder invariants. -/

theorem para_valid_runs_wf (pes : List ParaElement) :
    pes.all well_formed_pe = true →
      ∀ r ∈ para_valid_runs pes, r.doc_end = r.doc_start + r.text.length := by
  induction pes with
  | nil => intro _ r hr; simp [para_valid_runs] at hr
  | cons pe rest ih =>
    intro h r hr
    rw [List.all_cons] at h
    obtain ⟨hpe, hrest⟩ := Bool.and_eq_true_iff.mp h
    have hcons : para_valid_runs (pe :: rest) =
        (match pe.textRun with
         | none => para_valid_runs rest
         | some tr =>
           if tr.content.isEmpty then para_valid_runs rest
           else
             match pe.startIndex, pe.endIndex with
             | some s, some e => Run.mk tr.content s e :: para_valid_runs rest
             | _, _ => para_valid_runs rest) := rfl
    rw [hcons] at hr
    split at hr
    · exact ih hrest r hr
    · rename_i tr htr
      split at hr
      · exact ih hrest r hr
      · rename_i hc
        split at hr
        · rename_i s e hsi hei
          rcases List.mem_cons.mp hr with rfl | hr'
          · have hwf : (e == s + (tr.content.length : Int)) = true := by
              unfold well_formed_pe at hpe
              rw [htr, hsi, hei] at hpe
              exact hpe
            simpa using hwf
          · exact ih hrest r hr'
        · exact ih hrest r hr

theorem doc_runs_of_elements_wf (els : List Element) :
    (els.all fun el =>
      match el with
      | .paragraph _ _ _ pes => pes.all well_formed_pe
      | _ => false || true) = true →
    ∀ r ∈ doc_runs_of_elements els, r.doc_end = r.doc_start + r.text.length := by
  induction els with
  | nil => intro _ r hr; simp [doc_runs_of_elements] at hr
  | cons el rest ih =>
    intro h r hr
    rw [List.all_cons] at h
    obtain ⟨hel, hrest⟩ := Bool.and_eq_true_iff.mp h
    rw [doc_runs_of_elements_cons] at hr
    rcases List.mem_append.mp hr with hl | hrr
    · cases el with
      | paragraph si ei b pes => exact para_valid_runs_wf pes hel r hl
      | table si ei rows => simp [element_runs] at hl
      | toc content => simp [element_runs] at hl
      | sectionBreak => simp [element_runs] at hl
    · exact ih hrest r hrr

theorem doc_runs_wf (d : Document) (h : well_formed_doc d = true) :
    ∀ r ∈ doc_runs d, r.doc_end = r.doc_start + r.text.length :=
  doc_runs_of_elements_wf d.elements h

theorem flatten_go_spec (runs : List Run) :
    ∀ off : Nat,
      (flatten_go runs off).1 = runs.foldr (fun r acc => r.text ++ acc) [] ∧
      seg_contig off (flatten_go runs off).2 = true ∧
      (flatten_go runs off).2.map (fun s => Run.mk s.text s.doc_start s.doc_end) = runs ∧
      ∀ s ∈ (flatten_go runs off).2,
        off ≤ s.flat_start ∧ s.flat_end = s.flat_start + s.text.length ∧
          ((flatten_go runs off).1.drop (s.flat_start - off)).take s.text.length = s.text := by
  induction runs with
  | nil =>
    intro off
    refine ⟨rfl, rfl, rfl, ?_⟩
    intro s hs
    simp [flatten_go] at hs
  | cons r rest ih =>
    intro off
    obtain ⟨ih1, ih2, ih3, ih4⟩ := ih (off + r.text.length)
    have h1 : (flatten_go (r :: rest) off).1
        = r.text ++ (flatten_go rest (off + r.text.length)).1 := rfl
    have h2 : (flatten_go (r :: rest) off).2
        = Segment.mk off (off + r.text.length) r.doc_start r.doc_end r.text
            :: (flatten_go rest (off + r.text.length)).2 := rfl
    refine ⟨?_, ?_, ?_, ?_⟩
    · rw [h1, List.foldr_cons, ih1]
    · rw [h2, seg_contig]
      simp only [beq_self_eq_true, Bool.true_and]
      exact ih2
    · rw [h2, List.map_cons, ih3]
    · intro s hs
      rw [h2] at hs
      rcases List.mem_cons.mp hs with rfl | htail
      · refine ⟨Nat.le_refl _, rfl, ?_⟩
        rw [h1]
        simp only [Nat.sub_self, List.drop_zero]
        exact List.take_left' rfl
      · obtain ⟨hle, hfe, htake⟩ := ih4 s htail
        refine ⟨by omega, hfe, ?_⟩
        rw [h1]
        have hsplit : s.flat_start - off
            = r.text.length + (s.flat_start - (off + r.text.length)) := by omega
        rw [hsplit, ← List.drop_drop, List.drop_left]
        exact htake

theorem seg_contig_bounds (segs : List Segment) :
    ∀ off : Nat, seg_contig off segs = true →
      (∀ s ∈ segs, off ≤ s.flat_start) ∧
      List.Pairwise (fun a b : Segment => a.flat_start ≤ b.flat_start) segs := by
  induction segs with
  | nil => intro off _; exact ⟨by simp, List.Pairwise.nil⟩
  | cons s rest ih =>
    intro off h
    rw [seg_contig] at h
    obtain ⟨h12, h3⟩ := Bool.and_eq_true_iff.mp h
    obtain ⟨h1, h2⟩ := Bool.and_eq_true_iff.mp h12
    have hs_start : s.flat_start = off := by simpa using h1
    have hs_end : s.flat_end = off + s.text.length := by simpa using h2
    obtain ⟨ihb, ihp⟩ := ih s.flat_end h3
    constructor
    · intro t ht
      rcases List.mem_cons.mp ht with rfl | ht'
      · omega
      · have := ihb t ht'
        omega
    · refine List.Pairwise.cons ?_ ihp
      intro t ht
      have := ihb t ht
      omega

/-- C5: for every well-formed document (each present text run spans exactly
its character count in native indices, the invariant of the remote document
model), the snapshot is internally consistent: segments are contiguous from
flat offset zero and ordered by flat start; slicing the flat text at a
segment yields exactly that run text; the native width of each segment
equals its flat width; and the flat text and segment list are built from
precisely the runs that carry a text run, nonempty content and both native
indices — every other run is excluded from both. -/
theorem C5_snapshot_invariants (d : Document) (h : well_formed_doc d = true) :
    seg_contig 0 (flatten_doc_text_with_map d).2 = true ∧
    List.Pairwise (fun a b : Segment => a.flat_start ≤ b.flat_start)
      (flatten_doc_text_with_map d).2 ∧
    (∀ s ∈ (flatten_doc_text_with_map d).2,
      ((flatten_doc_text_with_map d).1.drop s.flat_start).take (s.flat_end - s.flat_start)
        = s.text) ∧
    (∀ s ∈ (flatten_doc_text_with_map d).2,
      s.doc_end - s.doc_start = (s.flat_end : Int) - (s.flat_start : Int)) ∧
    (flatten_doc_text_with_map d).1 = (doc_runs d).foldr (fun r acc => r.text ++ acc) [] ∧
    (flatten_doc_text_with_map d).2.map (fun s => Run.mk s.text s.doc_start s.doc_end)
      = doc_runs d := by
  obtain ⟨g1, g2, g3, g4⟩ := flatten_go_spec (doc_runs d) 0
  have hmap : (flatten_doc_text_with_map d).2.map
      (fun s => Run.mk s.text s.doc_start s.doc_end) = doc_runs d := g3
  refine ⟨g2, (seg_contig_bounds _ 0 g2).2, ?_, ?_, g1, hmap⟩
  · intro s hs
    obtain ⟨_, hfe, htake⟩ := g4 s hs
    have hlen : s.flat_end - s.flat_start = s.text.length := by omega
    rw [hlen]
    have := htake
    simpa using this
  · intro s hs
    have hrun : Run.mk s.text s.doc_start s.doc_end ∈ doc_runs d := by
      rw [← hmap]
      exact List.mem_map_of_mem _ hs
    have hw := doc_runs_wf d h _ hrun
    simp only at hw
    obtain ⟨_, hfe, _⟩ := g4 s hs
    omega

theorem C5_witness :
    well_formed_doc c5_doc = true ∧
    (seg_contig 0 (flatten_doc_text_with_map c5_doc).2 = true ∧
     List.Pairwise (fun a b : Segment => a.flat_start ≤ b.flat_start)
       (flatten_doc_text_with_map c5_doc).2 ∧
     (∀ s ∈ (flatten_doc_text_with_map c5_doc).2,
       ((flatten_doc_text_with_map c5_doc).1.drop s.flat_start).take
           (s.flat_end - s.flat_start) = s.text) ∧
     (∀ s ∈ (flatten_doc_text_with_map c5_doc).2,
       s.doc_end - s.doc_start = (s.flat_end : Int) - (s.flat_start : Int)) ∧
     (flatten_doc_text_with_map c5_doc).1
       = (doc_runs c5_doc).foldr (fun r acc => r.text ++ acc) [] ∧
     (flatten_doc_text_with_map c5_doc).2.map
         (fun s => Run.mk s.text s.doc_start s.doc_end) = doc_runs c5_doc) :=
  ⟨by decide, C5_snapshot_invariants c5_doc (by decide)⟩

/-- C6 counterexample: two segments abut at flat offset two, with a native
discontinuity between them.  The second segment includes offset two in its
half-open range and would resolve it to native index ten, but the translator
answers through the first segment — which merely abuts the offset — giving
native index three. -/
theorem C6_counterexample :
    c6_seg_a.flat_end = 2 ∧ c6_seg_b.flat_start = 2 ∧ c6_seg_b.flat_end = 4 ∧
    map_flat_offset_to_doc_index [c6_seg_a, c6_seg_b] 2 = some 3 ∧
    c6_seg_b.doc_start + ((2 : Int) - (c6_seg_b.flat_start : Int)) = 10 ∧
    (3 : Int) ≠ 10 := by
  decide

/-- C6 amended: at a boundary offset the translator answers through the
first segment in list order whose inclusive range contains the offset — the
earlier, abutting segment — and this agrees with resolving through the
segment that properly includes the offset exactly when the two segments are
also contiguous in native indices. -/
theorem C6_amended (s1 s2 : Segment) (rest : List Segment) (off : Nat)
    (h1 : s1.flat_start ≤ off) (h2 : off = s1.flat_end) (_h3 : off = s2.flat_start) :
    map_flat_offset_to_doc_index (s1 :: s2 :: rest) off
      = some (s1.doc_start + ((off : Int) - (s1.flat_start : Int))) ∧
    (map_flat_offset_to_doc_index (s1 :: s2 :: rest) off = some s2.doc_start ↔
      s1.doc_start + ((off : Int) - (s1.flat_start : Int)) = s2.doc_start) := by
  have hfirst : map_flat_offset_to_doc_index (s1 :: s2 :: rest) off
      = some (s1.doc_start + ((off : Int) - (s1.flat_start : Int))) := by
    rw [map_flat_offset_to_doc_index]
    rw [if_pos ⟨h1, by omega⟩]
  refine ⟨hfirst, ?_⟩
  rw [hfirst]
  simp

theorem C6_witness :
    map_flat_offset_to_doc_index [c6_seg_a, c6_seg_b] 2
      = some (c6_seg_a.doc_start + ((2 : Int) - (c6_seg_a.flat_start : Int))) ∧
    (map_flat_offset_to_doc_index [c6_seg_a, c6_seg_b] 2 = some c6_seg_b.doc_start ↔
      c6_seg_a.doc_start + ((2 : Int) - (c6_seg_a.flat_start : Int)) = c6_seg_b.doc_start) :=
  C6_amended c6_seg_a c6_seg_b [] 2 (by decide) (by decide) (by decide)

theorem is_list_block_iff (d : Document) (ds de : Int) :
    is_list_block d ds de = true ↔ overlaps_bulleted_paragraph d ds de := by
  unfold is_list_block overlaps_bulleted_paragraph
  rw [List.any_eq_true]
  constructor
  · rintro ⟨el, hel, hp⟩
    refine ⟨el, hel, ?_⟩
    cases el with
    | paragraph si ei b pes =>
      cases si with
      | none => simp at hp
      | some s =>
        cases ei with
        | none => simp at hp
        | some e =>
          obtain ⟨ho, hb⟩ := Bool.and_eq_true_iff.mp hp
          have hb' : b = true := hb
      -- the overlap test is the negation of the two disjointness comparisons
          have ho' : ¬(e ≤ ds) ∧ ¬(de ≤ s) := by
            simpa [range_overlaps, not_or] using ho
          exact ⟨s, e, pes, by rw [hb'], ho'.1, ho'.2⟩
    | table si ei rows => simp at hp
    | toc content => simp at hp
    | sectionBreak => simp at hp
  · rintro ⟨el, hel, s, e, pes, rfl, hne1, hne2⟩
    refine ⟨_, hel, ?_⟩
    simp [range_overlaps, hne1, hne2]

/-- C7 counterexample: the matched region overlaps a bulleted paragraph, yet
with an empty replacement text the issued requests are only the delete and
the empty insert — no reapply-list-style request is issued at all, although
the claim demands one covering the inserted range. -/
theorem C7_counterexample :
    is_list_block c7_doc 1 2 = true ∧
    replace_text_block_flexible c7_doc ['X'] []
      = ReplaceResult.mk true 1
          [Request.deleteContentRange 1 2, Request.insertText 1 []] ∧
    ((replace_text_block_flexible c7_doc ['X'] []).requests.all fun r =>
      match r with
      | Request.createParagraphBullets _ _ => false
      | _ => true) = true := by
  decide

/-- C7 amended: when the mapped match range overlaps a bulleted paragraph
the applier first strips bullet prefixes from the replacement and issues
delete then insert then — only when the stripped insertion text is
nonempty — a reapply-bullets request covering exactly the inserted range;
with an empty stripped insertion no list-style request is issued; and when
the range overlaps no bulleted paragraph the replacement is inserted
verbatim with no list-style request. -/
theorem C7_amended (doc : Document) (original final : List Char) (s e : Nat) (ds de : Int)
    (h0 : original ≠ [])
    (h1 : tok_search (pattern_from_block_docs original) (flatten_doc_text_with_map doc).1
        = some (s, e))
    (h2 : map_flat_offset_to_doc_index (flatten_doc_text_with_map doc).2 s = some ds)
    (h3 : map_flat_offset_to_doc_index (flatten_doc_text_with_map doc).2 e = some de) :
    (overlaps_bulleted_paragraph doc ds de → strip_list_prefixes final ≠ [] →
      replace_text_block_flexible doc original final = ReplaceResult.mk true 1
        [Request.deleteContentRange ds de,
         Request.insertText ds (strip_list_prefixes final),
         Request.createParagraphBullets ds
           (ds + ((strip_list_prefixes final).length : Int))]) ∧
    (overlaps_bulleted_paragraph doc ds de → strip_list_prefixes final = [] →
      replace_text_block_flexible doc original final = ReplaceResult.mk true 1
        [Request.deleteContentRange ds de, Request.insertText ds []]) ∧
    (¬overlaps_bulleted_paragraph doc ds de →
      replace_text_block_flexible doc original final = ReplaceResult.mk true 1
        [Request.deleteContentRange ds de, Request.insertText ds final]) := by
  have hbase : replace_text_block_flexible doc original final =
      ReplaceResult.mk true 1
        (if is_list_block doc ds de
            && !(if is_list_block doc ds de then strip_list_prefixes final
                 else final).isEmpty then
          [Request.deleteContentRange ds de,
           Request.insertText ds
             (if is_list_block doc ds de then strip_list_prefixes final else final)]
            ++ [Request.createParagraphBullets ds
                 (ds + (((if is_list_block doc ds de then strip_list_prefixes final
                          else final)).length : Int))]
        else
          [Request.deleteContentRange ds de,
           Request.insertText ds
             (if is_list_block doc ds de then strip_list_prefixes final else final)]) := by
    unfold replace_text_block_flexible
    rw [if_neg (by simpa [List.isEmpty_iff] using h0)]
    simp only [h1, h2, h3]
  refine ⟨?_, ?_, ?_⟩
  · intro hov hne
    have hl : is_list_block doc ds de = true := (is_list_block_iff doc ds de).mpr hov
    rw [hbase]
    simp only [hl, if_true]
    rw [if_pos (by simp [List.isEmpty_iff, hne])]
    rfl
  · intro hov hemp
    have hl : is_list_block doc ds de = true := (is_list_block_iff doc ds de).mpr hov
    rw [hbase]
    simp only [hl, if_true, hemp]
    rfl
  · intro hov
    have hl : is_list_block doc ds de = false := by
      rcases Bool.eq_false_or_eq_true (is_list_block doc ds de) with ht | hf
      · exact absurd ((is_list_block_iff doc ds de).mp ht) hov
      · exact hf
    rw [hbase]
    simp only [hl]
    rfl

theorem C7_witness :
    replace_text_block_flexible c7_doc ['X'] ['A'] = ReplaceResult.mk true 1
      [Request.deleteContentRange 1 2,
       Request.insertText 1 (strip_list_prefixes ['A']),
       Request.createParagraphBullets 1
         (1 + ((strip_list_prefixes ['A']).length : Int))] := by
  have hov : overlaps_bulleted_paragraph c7_doc 1 2 :=
    ⟨Element.paragraph (some 0) (some 3) true [pe_run 1 2 ['X']],
     by simp [c7_doc], 0, 3, [pe_run 1 2 ['X']], rfl, by norm_num, by norm_num⟩
  exact (C7_amended c7_doc ['X'] ['A'] 0 1 1 2 (by decide) (by decide) (by decide)
    (by decide)).1 hov (by decide)

/-- C8 counterexample: an execution in which every step succeeds except
persisting the Drive PDF id writes completed and then overwrites the
terminal status with failed — a transition out of Completed. -/
theorem C8_counterexample :
    tailoring_status_writes c8_env = [AppStatus.completed, AppStatus.failed] := by
  decide

/-- C8 amended: one execution of the pipeline performs exactly one terminal
status write — completed or failed — except that after a successful
completed write, a failure while persisting an obtained Drive PDF id makes
the handler overwrite the status with failed; no other step rewrites a
terminal status. -/
theorem C8_amended (env : TailorEnv) :
    tailoring_status_writes env = [AppStatus.completed] ∨
    tailoring_status_writes env = [AppStatus.failed] ∨
    (tailoring_status_writes env = [AppStatus.completed, AppStatus.failed] ∧
      env.drive_pdf_obtained = true ∧ env.pdf_update_ok = false) := by
  unfold tailoring_status_writes
  rcases env with ⟨f, bs, ur, ns, cu, dp, pu⟩
  cases f
  · simp
  · cases hfr : final_resume_of (TailorEnv.mk true bs ur ns cu dp pu) with
    | none => simp
    | some fr =>
      cases cu
      · simp
      · cases dp
        · simp
        · cases pu <;> simp

/-- C9: when the stored base summary is null or empty and the data fetches
and generation steps succeed, the pipeline never reaches the completed
write: final_resume is never assigned, building the update payload fails,
and the one status write of the execution is failed. -/
theorem C9_missing_summary_fails (env : TailorEnv)
    (h1 : env.fetch_ok = true) (h2 : py_truthy_str env.base_summary = false) :
    tailoring_status_writes env = [AppStatus.failed] ∧
    AppStatus.completed ∉ tailoring_status_writes env := by
  have hfr : final_resume_of env = none := by
    unfold final_resume_of
    rw [h2]
    rfl
  have hw : tailoring_status_writes env = [AppStatus.failed] := by
    unfold tailoring_status_writes
    rw [h1, hfr]
    rfl
  refine ⟨hw, ?_⟩
  rw [hw]
  simp

theorem C9_witness :
    tailoring_status_writes c9_env = [AppStatus.failed] ∧
    AppStatus.completed ∉ tailoring_status_writes c9_env :=
  C9_missing_summary_fails c9_env rfl rfl

/-- C10 counterexample: with the schedule that lets both workers poll the
pending row before either issues its claiming update, both workers claim the
same job and both proceed — the claim step is not an atomic conditional
update, so it is not the case that exactly one of two racing claimants
succeeds. -/
theorem C10_counterexample :
    (race_run AppStatus.completed AppStatus.completed demo_schedule race_init).claimed1
        = true ∧
    (race_run AppStatus.completed AppStatus.completed demo_schedule race_init).claimed2
        = true := by
  decide

theorem race_inv_step :
    ∀ (o1 o2 : AppStatus) (s : RaceState) (w : Bool),
      (o1 == AppStatus.completed || o1 == AppStatus.failed) = true →
      (o2 == AppStatus.completed || o2 == AppStatus.failed) = true →
      race_inv o1 o2 s = true → race_inv o1 o2 (race_step o1 o2 s w) = true := by
  decide

theorem race_inv_run (o1 o2 : AppStatus) (sched : List Bool) :
    ∀ s : RaceState,
      (o1 == AppStatus.completed || o1 == AppStatus.failed) = true →
      (o2 == AppStatus.completed || o2 == AppStatus.failed) = true →
      race_inv o1 o2 s = true → race_inv o1 o2 (race_run o1 o2 sched s) = true := by
  induction sched with
  | nil => intro s _ _ h; exact h
  | cons w rest ih =>
    intro s ho1 ho2 h
    have hstep := race_inv_step o1 o2 s w ho1 ho2 h
    exact ih (race_step o1 o2 s w) ho1 ho2 hstep

/-- C10 amended: the claiming update is unconditional — it sets the status
to processing whatever the current status is — so two workers that poll the
same pending row before either claims both claim it and both proceed, as
the demonstrated schedule shows; the job row still ends with a single final
status, the outcome of whichever claimant finished last. -/
theorem C10_amended :
    (∀ (st : AppStatus) (claimed : Bool) (outcome : AppStatus),
      worker_step st WPhase.claim claimed outcome
        = (AppStatus.processing, WPhase.finish, true)) ∧
    (race_run AppStatus.completed AppStatus.failed demo_schedule race_init).claimed1
        = true ∧
    (race_run AppStatus.completed AppStatus.failed demo_schedule race_init).claimed2
        = true ∧
    (∀ (sched : List Bool) (o1 o2 : AppStatus),
      (o1 = AppStatus.completed ∨ o1 = AppStatus.failed) →
      (o2 = AppStatus.completed ∨ o2 = AppStatus.failed) →
      (race_run o1 o2 sched race_init).phase1 = WPhase.done →
      (race_run o1 o2 sched race_init).phase2 = WPhase.done →
      (race_run o1 o2 sched race_init).status = o1 ∨
        (race_run o1 o2 sched race_init).status = o2) := by
  refine ⟨fun _ _ _ => rfl, by decide, by decide, ?_⟩
  intro sched o1 o2 ho1 ho2 hp1 hp2
  have hb1 : (o1 == AppStatus.completed || o1 == AppStatus.failed) = true := by
    rcases ho1 with rfl | rfl <;> decide
  have hb2 : (o2 == AppStatus.completed || o2 == AppStatus.failed) = true := by
    rcases ho2 with rfl | rfl <;> decide
  have hinit : race_inv o1 o2 race_init = true := by
    rcases ho1 with rfl | rfl <;> rcases ho2 with rfl | rfl <;> decide
  have hinv := race_inv_run o1 o2 sched race_init hb1 hb2 hinit
  unfold race_inv at hinv
  obtain ⟨_, h4⟩ := Bool.and_eq_true_iff.mp hinv
  rw [hp1, hp2] at h4
  have : ((race_run o1 o2 sched race_init).status == o1
      || (race_run o1 o2 sched race_init).status == o2) = true := by
    simpa using h4
  rcases Bool.or_eq_true_iff.mp this with h | h
  · exact Or.inl (by simpa using h)
  · exact Or.inr (by simpa using h)

theorem C10_witness :
    (race_run AppStatus.completed AppStatus.failed demo_schedule race_init).status
        = AppStatus.completed ∨
    (race_run AppStatus.completed AppStatus.failed demo_schedule race_init).status
        = AppStatus.failed :=
  C10_amended.2.2.2 demo_schedule AppStatus.completed AppStatus.failed
    (Or.inl rfl) (Or.inr rfl) (by decide) (by decide)
